import Mathlib

/-!
Verification of the api-log-analyzer analysis engine (`src/log_analyzer.py`)
against its natural-language specification.

The Python code is shallowly embedded: JSON records become `RawRecord`
(a scalar or a key-value record with the optional fields of the data model),
Python numbers become `ℚ`, `collections.Counter` becomes an
insertion-ordered association list (`counterList`), `Counter.most_common`
and `sorted(..., reverse=True)` become a stable descending insertion sort
(`sortDesc`), Python `round` becomes round-half-even (`pyRound`), and the
`ValueError` raised by `min`/`max` on an empty sequence is modelled by
`analyze_logs` returning `none`.

Rational arithmetic is written through `mkRat`-based operations (`qadd`,
`qmul`, `qdiv`, `qsum`) so that every definition evaluates inside the
kernel; bridge lemmas identify them with the field operations of `ℚ`.
-/

namespace LogAnalyzer

/-- Exact rational multiplication, via `mkRat`. -/
def qmul (a b : ℚ) : ℚ := mkRat (a.num * b.num) (a.den * b.den)

/-- Exact rational division, via `mkRat` (0 when the divisor is 0; the
code only divides after guarding the divisor, so that case is never
reached on the Python side). -/
def qdiv (a b : ℚ) : ℚ :=
  let n := a.num * (b.den : ℤ)
  let d := (a.den : ℤ) * b.num
  if d < 0 then mkRat (-n) (-d).toNat else mkRat n d.toNat

/-- Exact rational addition, via `mkRat`. -/
def qadd (a b : ℚ) : ℚ :=
  mkRat (a.num * (b.den : ℤ) + b.num * (a.den : ℤ)) (a.den * b.den)

/-- Python `sum` over rationals (the fold order is irrelevant for exact
rational addition). -/
def qsum (l : List ℚ) : ℚ := l.foldr qadd 0

/-- Round-half-even to the nearest integer, the behaviour of Python
`round` on an exact value: `q.num / q.den` is the floor since `q.den`
is positive, and `rn / q.den` the fractional part. -/
def pyRoundInt (q : ℚ) : ℤ :=
  let f := q.num / (q.den : ℤ)
  let rn := q.num - f * (q.den : ℤ)
  if 2 * rn < (q.den : ℤ) then f
  else if (q.den : ℤ) < 2 * rn then f + 1
  else if f % 2 = 0 then f else f + 1

/-- Python `round(q, d)`: round-half-even at `d` decimal digits. -/
def pyRound (d : Nat) (q : ℚ) : ℚ :=
  qdiv ((pyRoundInt (qmul q ((10 ^ d : ℕ) : ℚ))) : ℚ) (((10 : ℕ) ^ d : ℕ) : ℚ)

/-- One key-value log record, with the optional fields of the data model
(`ip`, `endpoint`, `status`, `method`, `response_time_ms`, `timestamp`).
A missing key is `none`; a key present with an empty value is `some ""`. -/
structure Entry where
  ip : Option String
  endpoint : Option String
  status : Option Int
  method : Option String
  response_time_ms : Option ℚ
  timestamp : Option String
deriving DecidableEq, Inhabited

/-- A raw parsed JSON value handed to the analyzer: either a key-value
record (`dict`) or anything else (`scalar`, covering numbers, strings,
lists, ...), which `isinstance(log, dict)` rejects. -/
inductive RawRecord where
  | scalar : RawRecord
  | dict : Entry → RawRecord
deriving DecidableEq, Inhabited

/-- The retention test of `load_logs`:
`isinstance(log, dict)` with the keys `ip` and `endpoint` present. -/
def loadKeep : RawRecord → Bool
  | RawRecord.dict e => e.ip.isSome && e.endpoint.isSome
  | RawRecord.scalar => false

/-- The pure filtering core of `load_logs` (line 13 of the source):
the list comprehension keeping key-value records with `ip` and `endpoint` present. -/
def load_logs (logs : List RawRecord) : List RawRecord :=
  logs.filter loadKeep

/-- The filter at the top of `analyze_logs` (line 21):
the list comprehension keeping key-value records with `ip` present.
Only presence of `ip` is required; `endpoint` is not. -/
def validLogs (logs : List RawRecord) : List Entry :=
  logs.filterMap fun l => match l with
    | RawRecord.dict e => if e.ip.isSome then some e else none
    | RawRecord.scalar => none

/-- All key-value records of the input, in order. -/
def entriesOf (logs : List RawRecord) : List Entry :=
  logs.filterMap fun l => match l with
    | RawRecord.dict e => some e
    | RawRecord.scalar => none

/-- A list of raw records that is already a validated entry set: every
record passed the `load_logs` validator. -/
def ValidatedInput (logs : List RawRecord) : Prop :=
  ∀ l ∈ logs, loadKeep l = true

instance (logs : List RawRecord) : Decidable (ValidatedInput logs) :=
  inferInstanceAs (Decidable (∀ l ∈ logs, loadKeep l = true))

/-- The 5xx test of line 32: `status` present with value in [500, 600). -/
def has5xx (e : Entry) : Bool :=
  match e.status with
  | some s => decide (500 ≤ s) && decide (s < 600)
  | none => false

/-- The keys of a list in first-occurrence order: the key order of a
Python `Counter`/`dict` built by iterating the list. -/
def firstOccs {K : Type} [DecidableEq K] : List K → List K
  | [] => []
  | k :: ks => k :: (firstOccs ks).filter (fun x => x ≠ k)

/-- `collections.Counter(ks)` as an association list: keys in
first-occurrence order, each with its total multiplicity. -/
def counterList {K : Type} [DecidableEq K] (ks : List K) : List (K × Nat) :=
  (firstOccs ks).map fun k => (k, ks.count k)

/-- Insert `x` into a descending-sorted list, after every element whose
score is strictly greater, before the first whose score is `≤`: the
insertion step of a stable descending sort. -/
def insertDesc {α β : Type} [LinearOrder β] (score : α → β) (x : α) : List α → List α
  | [] => [x]
  | y :: ys => if score x < score y then y :: insertDesc score x ys else x :: y :: ys

/-- Stable descending sort by `score`: the behaviour of Python
`sorted(l, key=score, reverse=True)` and of `heapq.nlargest` before
truncation (ties keep their input order). -/
def sortDesc {α β : Type} [LinearOrder β] (score : α → β) : List α → List α
  | [] => []
  | x :: xs => insertDesc score x (sortDesc score xs)

/-- `Counter.most_common(n)`: the `n` highest-count pairs, stable
descending by count. -/
def mostCommon {K : Type} (n : Nat) (counter : List (K × Nat)) : List (K × Nat) :=
  (sortDesc Prod.snd counter).take n

/-- Lexicographic comparison of strings by Unicode code point, the
ordering Python uses for `min`/`max` over `str`. -/
def strLtB : List Char → List Char → Bool
  | [], [] => false
  | [], _ :: _ => true
  | _ :: _, [] => false
  | c :: cs, d :: ds =>
    if c.toNat < d.toNat then true
    else if d.toNat < c.toNat then false
    else strLtB cs ds

/-- Python `min` over a list of strings (`ValueError`, i.e. `none`, on empty). -/
def listMinS : List String → Option String
  | [] => none
  | s :: rest => some (rest.foldl (fun m t => if strLtB t.data m.data then t else m) s)

/-- Python `max` over a list of strings (`ValueError`, i.e. `none`, on empty). -/
def listMaxS : List String → Option String
  | [] => none
  | s :: rest => some (rest.foldl (fun m t => if strLtB m.data t.data then t else m) s)

/-- The generator of line 89: the timestamp value of an entry when present
and truthy (non-empty), else nothing. -/
def truthyTimestamp (e : Entry) : Option String :=
  match e.timestamp with
  | some s => if s = "" then none else some s
  | none => none

/-- One row of `endpoint_error_rates` (lines 51-55). -/
structure RateStats where
  total_requests : Nat
  server_errors_5xx : Nat
  error_rate_percent : ℚ
deriving DecidableEq, Inhabited

/-- One row of `most_active_ips` (line 95). -/
structure IpStat where
  ip_address : String
  request_count : Nat
  percentage : ℚ
deriving DecidableEq, Inhabited

/-- One row of `top_endpoints` (line 99). -/
structure EndpointStat where
  endpoint : String
  request_count : Nat
  percentage : ℚ
deriving DecidableEq, Inhabited

/-- One row of `top_error_endpoints` (line 109). -/
structure ErrorEndpointStat where
  endpoint : String
  error_count : Nat
deriving DecidableEq, Inhabited

/-- One row of `recent_5xx_errors` (lines 114-121). -/
structure ErrorDetail where
  timestamp : String
  ip : String
  endpoint : String
  status_code : Int
  method : String
  response_time_ms : ℚ
deriving DecidableEq, Inhabited

/-- One row of `slowest_requests` (lines 128-134). -/
structure SlowRequest where
  endpoint : String
  response_time_ms : ℚ
  method : String
  status_code : Int
  ip : String
deriving DecidableEq, Inhabited

/-- The `response_codes` summary (lines 61-66). -/
structure ResponseCodes where
  success2xx : Nat
  redirect3xx : Nat
  clientError4xx : Nat
  serverError5xx : Nat
deriving DecidableEq, Inhabited

/-- `sum(count for code, count in status_code_counter.items() if lo <= code < hi)`. -/
def bucketSum (lo hi : Int) (counter : List (Int × Nat)) : Nat :=
  ((counter.filter fun p => decide (lo ≤ p.1) && decide (p.1 < hi)).map Prod.snd).sum

/-- The projection of lines 114-121 (`recent_5xx_errors` rows). -/
def projDetail (e : Entry) : ErrorDetail :=
  ErrorDetail.mk (e.timestamp.getD "") (e.ip.getD "") (e.endpoint.getD "")
    (e.status.getD 0) (e.method.getD "") (e.response_time_ms.getD 0)

/-- The projection of lines 128-134 (`slowest_requests` rows). -/
def projSlow (e : Entry) : SlowRequest :=
  SlowRequest.mk (e.endpoint.getD "") (e.response_time_ms.getD 0)
    (e.method.getD "") (e.status.getD 0) (e.ip.getD "")

/-- The `AnalysisResult` report of `analyze_logs` (lines 84-138), with the
wall-clock `analysis_timestamp` omitted as an injected external input. -/
structure AnalysisResult where
  total_logs_analyzed : Nat
  period_start : String
  period_end : String
  most_active_ips : List IpStat
  top_endpoints : List EndpointStat
  server_error_rate_percent : ℚ
  total_server_errors : Nat
  response_code_summary : ResponseCodes
  detailed_status_codes : List (Int × Nat)
  top_error_endpoints : List ErrorEndpointStat
  endpoint_error_rates : List (String × RateStats)
  recent_5xx_errors : List ErrorDetail
  avg_response_time_ms : ℚ
  slowest_requests : List SlowRequest
deriving DecidableEq, Inhabited

/-- `analyze_logs` (lines 18-138). Returns `none` exactly where the Python
function raises: `min`/`max` over the empty timestamp sequence. -/
def analyze_logs (logs : List RawRecord) : Option AnalysisResult :=
  let valid := validLogs logs
  let ipKeys := valid.filterMap fun e => e.ip
  let epKeys := valid.filterMap fun e => e.endpoint
  let errors5xx := valid.filter has5xx
  let rts := valid.filterMap fun e => e.response_time_ms
  let avg : ℚ := if rts.length = 0 then 0 else qdiv (qsum rts) (rts.length : ℚ)
  let rates := (firstOccs epKeys).map fun ep =>
    let se := (errors5xx.filter fun e => e.endpoint == some ep).length
    let tc := epKeys.count ep
    let rate : ℚ := if 0 < tc then qmul (qdiv (se : ℚ) (tc : ℚ)) 100 else 0
    (ep, RateStats.mk tc se (pyRound 2 rate))
  let stCounter := counterList (valid.filterMap fun e => e.status)
  let total := valid.length
  let serverRate : ℚ :=
    if 0 < total then qmul (qdiv (errors5xx.length : ℚ) (total : ℚ)) 100 else 0
  let errEpKeys := errors5xx.filterMap fun e => e.endpoint
  let slowCands := valid.filter fun e => e.response_time_ms.isSome && e.endpoint.isSome
  let tss := valid.filterMap truthyTimestamp
  match listMinS tss, listMaxS tss with
  | some mn, some mx =>
    some (AnalysisResult.mk
      total mn mx
      ((mostCommon 10 (counterList ipKeys)).map fun p =>
        IpStat.mk p.1 p.2 (pyRound 1 (qmul (qdiv (p.2 : ℚ) (total : ℚ)) 100)))
      ((mostCommon 5 (counterList epKeys)).map fun p =>
        EndpointStat.mk p.1 p.2 (pyRound 1 (qmul (qdiv (p.2 : ℚ) (total : ℚ)) 100)))
      (pyRound 2 serverRate)
      errors5xx.length
      (ResponseCodes.mk (bucketSum 200 300 stCounter) (bucketSum 300 400 stCounter)
        (bucketSum 400 500 stCounter) (bucketSum 500 600 stCounter))
      stCounter
      ((mostCommon 5 (counterList errEpKeys)).map fun p => ErrorEndpointStat.mk p.1 p.2)
      rates
      ((errors5xx.take 10).map projDetail)
      (pyRound 2 avg)
      (((sortDesc (fun e => e.response_time_ms.getD 0) slowCands).take 5).map projSlow))
  | _, _ => none

/-! ### Arithmetic bridge lemmas -/

theorem mkRat_toNat_eq_div (n d : ℤ) (hd : 0 ≤ d) : mkRat n d.toNat = (n : ℚ) / (d : ℚ) := by
  rw [Rat.mkRat_eq_div]
  congr 1
  rw [← Int.cast_natCast, Int.toNat_of_nonneg hd]

theorem qdiv_eq (a b : ℚ) : qdiv a b = a / b := by
  have key : ∀ n d : ℤ,
      (if d < 0 then mkRat (-n) (-d).toNat else mkRat n d.toNat) = (n : ℚ) / (d : ℚ) := by
    intro n d
    by_cases h : d < 0
    · rw [if_pos h, mkRat_toNat_eq_div (-n) (-d) (by omega)]
      push_cast
      exact neg_div_neg_eq (n : ℚ) (d : ℚ)
    · rw [if_neg h, mkRat_toNat_eq_div n d (by omega)]
  rw [qdiv, key]
  push_cast
  rw [← div_mul_div_comm, Rat.num_div_den, ← inv_div, Rat.num_div_den, ← div_eq_mul_inv]

theorem qmul_eq (a b : ℚ) : qmul a b = a * b := by
  rw [qmul, Rat.mkRat_eq_div]
  push_cast
  rw [← div_mul_div_comm, Rat.num_div_den, Rat.num_div_den]

theorem qadd_eq (a b : ℚ) : qadd a b = a + b := by
  have ha : ((a.den : ℚ)) ≠ 0 := Nat.cast_ne_zero.mpr a.den_ne_zero
  have hb : ((b.den : ℚ)) ≠ 0 := Nat.cast_ne_zero.mpr b.den_ne_zero
  rw [qadd, Rat.mkRat_eq_div]
  push_cast
  conv_rhs => rw [← Rat.num_div_den a, ← Rat.num_div_den b]
  rw [div_add_div _ _ ha hb]
  ring_nf

theorem qsum_eq (l : List ℚ) : qsum l = l.sum := by
  induction l with
  | nil => rfl
  | cons x xs ih =>
    show qadd x (qsum xs) = (x :: xs).sum
    rw [qadd_eq, ih, List.sum_cons]

theorem pyRoundInt_cases (q : ℚ) : pyRoundInt q = ⌊q⌋ ∨ pyRoundInt q = ⌊q⌋ + 1 := by
  have hfl : q.num / (q.den : ℤ) = ⌊q⌋ := Rat.floor_def.symm
  simp only [pyRoundInt, hfl]
  split_ifs <;> simp

theorem pyRoundInt_nonneg (q : ℚ) (h : 0 ≤ q) : 0 ≤ pyRoundInt q := by
  have h0 : (0 : ℤ) ≤ ⌊q⌋ := Int.floor_nonneg.mpr h
  rcases pyRoundInt_cases q with hc | hc <;> omega

theorem pyRoundInt_le (q : ℚ) (n : ℤ) (h : q ≤ (n : ℚ)) : pyRoundInt q ≤ n := by
  have hfl : q.num / (q.den : ℤ) = ⌊q⌋ := Rat.floor_def.symm
  have hfle : ⌊q⌋ ≤ n := by
    have h2 := Int.floor_le_floor h
    rwa [Int.floor_intCast] at h2
  have hdenz : (0 : ℤ) < (q.den : ℤ) := by exact_mod_cast q.den_pos
  have hnum : q.num ≤ n * (q.den : ℤ) := by
    have h3 : ((q.num : ℚ)) ≤ (n : ℚ) * ((q.den : ℚ)) := by
      rw [← Rat.num_div_den q] at h
      rwa [div_le_iff₀ (by exact_mod_cast hdenz)] at h
    exact_mod_cast h3
  simp only [pyRoundInt, hfl]
  split_ifs with h1 h2 h3
  · exact hfle
  all_goals {
    have hfrac : ⌊q⌋ * (q.den : ℤ) + (q.num - ⌊q⌋ * (q.den : ℤ)) = q.num := by ring
    have hmul : n * (q.den : ℤ) ≤ ⌊q⌋ * (q.den : ℤ) ∨ ⌊q⌋ + 1 ≤ n := by
      rcases le_or_lt n ⌊q⌋ with hno | hyes
      · exact Or.inl (mul_le_mul_of_nonneg_right hno (le_of_lt hdenz))
      · exact Or.inr hyes
    rcases hmul with hm | hm
    · omega
    · omega }
theorem pyRound_nonneg (d : Nat) (q : ℚ) (h : 0 ≤ q) : 0 ≤ pyRound d q := by
  rw [pyRound, qdiv_eq, qmul_eq]
  have hp : (0 : ℚ) < ((10 ^ d : ℕ) : ℚ) := by positivity
  apply div_nonneg _ (le_of_lt hp)
  exact_mod_cast pyRoundInt_nonneg _ (mul_nonneg h (le_of_lt hp))

theorem pyRound_le (d : Nat) (q : ℚ) (h : q ≤ 100) : pyRound d q ≤ 100 := by
  rw [pyRound, qdiv_eq, qmul_eq]
  have hp : (0 : ℚ) < ((10 ^ d : ℕ) : ℚ) := by positivity
  rw [div_le_iff₀ hp]
  have hb : pyRoundInt (q * ((10 ^ d : ℕ) : ℚ)) ≤ ((100 * 10 ^ d : ℤ)) := by
    apply pyRoundInt_le
    push_cast
    exact mul_le_mul_of_nonneg_right h (by positivity)
  calc ((pyRoundInt (q * ((10 ^ d : ℕ) : ℚ)) : ℤ) : ℚ) ≤ ((100 * 10 ^ d : ℤ) : ℚ) := by
        exact_mod_cast hb
    _ = 100 * ((10 ^ d : ℕ) : ℚ) := by push_cast; ring

/-! ### Counter lemmas -/

theorem mem_firstOccs {K : Type} [DecidableEq K] (ks : List K) (a : K) :
    a ∈ firstOccs ks ↔ a ∈ ks := by
  induction ks with
  | nil => simp [firstOccs]
  | cons k ks ih =>
    simp only [firstOccs, List.mem_cons, List.mem_filter]
    constructor
    · rintro (rfl | ⟨h1, _⟩)
      · exact Or.inl rfl
      · exact Or.inr (ih.mp h1)
    · rintro (rfl | h1)
      · exact Or.inl rfl
      · by_cases hak : a = k
        · exact Or.inl hak
        · exact Or.inr ⟨ih.mpr h1, by simpa using hak⟩

theorem nodup_firstOccs {K : Type} [DecidableEq K] (ks : List K) : (firstOccs ks).Nodup := by
  induction ks with
  | nil => simp [firstOccs]
  | cons k ks ih =>
    refine List.Nodup.cons ?_ (List.Nodup.filter _ ih)
    intro hmem
    rcases List.mem_filter.mp hmem with ⟨_, hne⟩
    simp at hne

theorem counterList_mem {K : Type} [DecidableEq K] (ks : List K) (k : K) (c : Nat)
    (h : (k, c) ∈ counterList ks) : k ∈ ks ∧ c = ks.count k := by
  rcases List.mem_map.mp h with ⟨k1, hk1, heq⟩
  have h1 : k1 = k := congrArg Prod.fst heq
  have h2 : ks.count k1 = c := congrArg Prod.snd heq
  rw [h1] at hk1 h2
  exact ⟨(mem_firstOccs ks k).mp hk1, h2.symm⟩

theorem sum_map_add_nat {K : Type} (L : List K) (f g : K → Nat) :
    (L.map fun k => f k + g k).sum = (L.map f).sum + (L.map g).sum := by
  induction L with
  | nil => rfl
  | cons k L ih => simp only [List.map_cons, List.sum_cons, ih]; omega

theorem sum_map_indicator {K : Type} [DecidableEq K] (L : List K) (x : K) (v : K → Nat)
    (hL : L.Nodup) (hx : x ∈ L) :
    (L.map fun k => if k = x then v k else 0).sum = v x := by
  induction L with
  | nil => cases hx
  | cons k L ih =>
    rcases List.nodup_cons.mp hL with ⟨hk, hL1⟩
    simp only [List.map_cons, List.sum_cons]
    rcases List.mem_cons.mp hx with hxk | hx1
    · have hhead : (if k = x then v k else 0) = v x := by
        rcases hxk with rfl
        simp
      have hxnot : x ∉ L := by rw [hxk]; exact hk
      have hz : (L.map fun k1 => if k1 = x then v k1 else 0).sum = 0 := by
        apply List.sum_eq_zero
        intro y hy
        rcases List.mem_map.mp hy with ⟨k2, hk2, hke⟩
        by_cases hkk : k2 = x
        · exact absurd (hkk ▸ hk2) hxnot
        · rw [if_neg hkk] at hke; omega
      rw [hhead]
      omega
    · have hne : k ≠ x := fun hkx => hk (hkx ▸ hx1)
      rw [if_neg hne, ih hL1 hx1]
      omega

theorem sum_counts_eq_countP {K : Type} [DecidableEq K] (pb : K → Bool) (ks L : List K)
    (hL : L.Nodup) (hcov : ∀ x ∈ ks, x ∈ L) :
    (L.map fun k => if pb k then ks.count k else 0).sum = ks.countP pb := by
  induction ks with
  | nil =>
    rw [List.countP_nil]
    apply List.sum_eq_zero
    intro y hy
    rcases List.mem_map.mp hy with ⟨k2, _, hke⟩
    simp only [List.count_nil] at hke
    by_cases hp : pb k2 <;> simp [hp] at hke <;> omega
  | cons x ks ih =>
    have hxL : x ∈ L := hcov x (List.mem_cons_self x ks)
    have hcov1 : ∀ y ∈ ks, y ∈ L := fun y hy => hcov y (List.mem_cons_of_mem x hy)
    have hfun : (fun k => if pb k then (x :: ks).count k else 0) =
        (fun k => (if pb k then ks.count k else 0) +
          (if k = x then (if pb k then 1 else 0) else 0)) := by
      funext k
      by_cases hkx : k = x
      · rw [hkx, List.count_cons, if_pos rfl]
        by_cases hp : pb x <;> simp [hp]
      · rw [List.count_cons]
        have hxk2 : ¬x = k := fun h => hkx h.symm
        by_cases hp : pb k <;> simp [hp, hkx, hxk2]
    have hsplit : (L.map fun k => if pb k then (x :: ks).count k else 0).sum =
        (L.map fun k => if pb k then ks.count k else 0).sum +
        (L.map fun k => if k = x then (if pb k then 1 else 0) else 0).sum := by
      rw [← sum_map_add_nat, hfun]
    rw [hsplit, ih (hcov1), sum_map_indicator L x _ hL hxL, List.countP_cons]

theorem bucketSum_eq_countP (lo hi : Int) (ks : List Int) :
    bucketSum lo hi (counterList ks) =
      ks.countP (fun s => decide (lo ≤ s) && decide (s < hi)) := by
  rw [bucketSum, counterList]
  rw [← sum_counts_eq_countP (fun s => decide (lo ≤ s) && decide (s < hi)) ks (firstOccs ks)
        (nodup_firstOccs ks) (fun x hx => (mem_firstOccs ks x).mpr hx)]
  induction firstOccs ks with
  | nil => rfl
  | cons k L ih =>
    simp only [List.map_cons, List.filter_cons]
    by_cases hp : (decide (lo ≤ k) && decide (k < hi)) = true
    · rw [if_pos hp, hp, List.map_cons, List.sum_cons, List.sum_cons, if_pos rfl, ih]
    · rw [if_neg hp, List.sum_cons, ih]
      have hp0 : (if (decide (lo ≤ k) && decide (k < hi)) = true then ks.count k else 0) = 0 := by
        rw [if_neg hp]
      omega

theorem lookup_map_of_nodup {K B : Type} [DecidableEq K] (L : List K) (f : K → B) (x : K)
    (hL : L.Nodup) (hx : x ∈ L) :
    (L.map fun k => (k, f k)).lookup x = some (f x) := by
  induction L with
  | nil => cases hx
  | cons k L ih =>
    rcases List.nodup_cons.mp hL with ⟨hk, hL1⟩
    rcases List.mem_cons.mp hx with rfl | hx1
    · simp [List.lookup]
    · have hne : (x == k) = false := by
        apply beq_eq_false_iff_ne.mpr
        exact fun hkx => hk (hkx ▸ hx1)
      simp only [List.map_cons, List.lookup, hne]
      exact ih hL1 hx1

/-! ### Stable descending sort lemmas -/

theorem insertDesc_perm {α β : Type} [LinearOrder β] (score : α → β) (x : α) (l : List α) :
    (insertDesc score x l).Perm (x :: l) := by
  induction l with
  | nil => exact List.Perm.refl _
  | cons y ys ih =>
    rw [insertDesc]
    by_cases h : score x < score y
    · rw [if_pos h]
      exact (List.Perm.cons y ih).trans (List.Perm.swap x y ys)
    · rw [if_neg h]

theorem sortDesc_perm {α β : Type} [LinearOrder β] (score : α → β) (l : List α) :
    (sortDesc score l).Perm l := by
  induction l with
  | nil => exact List.Perm.refl _
  | cons x xs ih =>
    rw [sortDesc]
    exact (insertDesc_perm score x (sortDesc score xs)).trans (List.Perm.cons x ih)

theorem sortDesc_length {α β : Type} [LinearOrder β] (score : α → β) (l : List α) :
    (sortDesc score l).length = l.length :=
  (sortDesc_perm score l).length_eq

theorem sortDesc_mem {α β : Type} [LinearOrder β] (score : α → β) (l : List α) (a : α) :
    a ∈ sortDesc score l ↔ a ∈ l :=
  (sortDesc_perm score l).mem_iff

theorem insertDesc_pairwise {α β : Type} [LinearOrder β] (score : α → β) (x : α) (l : List α)
    (h : l.Pairwise fun a b => score b ≤ score a) :
    (insertDesc score x l).Pairwise fun a b => score b ≤ score a := by
  induction l with
  | nil => simp [insertDesc]
  | cons y ys ih =>
    rcases List.pairwise_cons.mp h with ⟨hy, hys⟩
    rw [insertDesc]
    by_cases hxy : score x < score y
    · rw [if_pos hxy]
      apply List.pairwise_cons.mpr
      refine ⟨?_, ih hys⟩
      intro z hz
      have hz2 := (insertDesc_perm score x ys).mem_iff.mp hz
      rcases List.mem_cons.mp hz2 with rfl | hz3
      · exact le_of_lt hxy
      · exact hy z hz3
    · rw [if_neg hxy]
      apply List.pairwise_cons.mpr
      refine ⟨?_, h⟩
      intro z hz
      rcases List.mem_cons.mp hz with rfl | hz3
      · exact le_of_not_lt hxy
      · exact le_trans (hy z hz3) (le_of_not_lt hxy)

theorem sortDesc_pairwise {α β : Type} [LinearOrder β] (score : α → β) (l : List α) :
    (sortDesc score l).Pairwise fun a b => score b ≤ score a := by
  induction l with
  | nil => simp [sortDesc]
  | cons x xs ih =>
    rw [sortDesc]
    exact insertDesc_pairwise score x _ ih

theorem insertDesc_filter {α β : Type} [LinearOrder β] (score : α → β) (x : α) (l : List α)
    (c : β) (h : l.Pairwise fun a b => score b ≤ score a) :
    (insertDesc score x l).filter (fun y => decide (score y = c)) =
      if score x = c then x :: l.filter (fun y => decide (score y = c))
      else l.filter (fun y => decide (score y = c)) := by
  induction l with
  | nil =>
    rw [insertDesc]
    by_cases hx : score x = c <;> simp [hx, List.filter]
  | cons y ys ih =>
    rcases List.pairwise_cons.mp h with ⟨hy, hys⟩
    rw [insertDesc]
    by_cases hxy : score x < score y
    · rw [if_pos hxy]
      simp only [List.filter_cons, ih hys]
      by_cases hx : score x = c
      · have hyc : ¬(score y = c) := by
          rw [← hx]
          exact ne_of_gt hxy
        simp [hx, hyc]
      · by_cases hyc : score y = c <;> simp [hx, hyc]
    · rw [if_neg hxy]
      simp only [List.filter_cons]
      by_cases hx : score x = c <;> simp [hx]

theorem sortDesc_filter {α β : Type} [LinearOrder β] (score : α → β) (l : List α) (c : β) :
    (sortDesc score l).filter (fun y => decide (score y = c)) =
      l.filter (fun y => decide (score y = c)) := by
  induction l with
  | nil => rfl
  | cons x xs ih =>
    rw [sortDesc, insertDesc_filter score x _ c (sortDesc_pairwise score xs), List.filter_cons]
    by_cases hx : score x = c
    · rw [if_pos hx, ih, if_pos (by simpa using hx)]
    · rw [if_neg hx, ih, if_neg (by simpa using hx)]

/-! ### Structural lemmas about the analyzer -/

theorem validLogs_validated (logs : List RawRecord) (h : ValidatedInput logs) :
    validLogs logs = entriesOf logs := by
  induction logs with
  | nil => rfl
  | cons l ls ih =>
    have hl := h l (List.mem_cons_self l ls)
    have hls : ValidatedInput ls := fun x hx => h x (List.mem_cons_of_mem _ hx)
    cases l with
    | scalar => simp [loadKeep] at hl
    | dict e =>
      simp only [loadKeep, Bool.and_eq_true] at hl
      have h1 : validLogs (RawRecord.dict e :: ls) = e :: validLogs ls := by
        simp [validLogs, List.filterMap_cons, hl.1]
      have h2 : entriesOf (RawRecord.dict e :: ls) = e :: entriesOf ls := by
        simp [entriesOf, List.filterMap_cons]
      rw [h1, h2, ih hls]

theorem validLogs_length_countP (logs : List RawRecord) :
    (validLogs logs).length = logs.countP fun l => match l with
      | RawRecord.dict e => e.ip.isSome
      | RawRecord.scalar => false := by
  induction logs with
  | nil => rfl
  | cons l ls ih =>
    cases l with
    | scalar => simpa [validLogs, List.filterMap_cons, List.countP_cons] using ih
    | dict e =>
      simp only [validLogs] at ih ⊢
      by_cases hip : e.ip.isSome = true <;>
        simp [List.filterMap_cons, List.countP_cons, hip, ih]

theorem count_filterMap_eq_countP {α β : Type} [DecidableEq β] (f : α → Option β)
    (l : List α) (b : β) :
    (l.filterMap f).count b = l.countP fun a => f a == some b := by
  induction l with
  | nil => rfl
  | cons a l ih =>
    rw [List.filterMap_cons, List.countP_cons]
    cases hfa : f a with
    | none => simp [hfa, ih]
    | some c =>
      rw [List.count_cons, ih]
      by_cases hcb : c = b <;> simp [hfa, hcb]

theorem countP_and_le {α : Type} (l : List α) (p q : α → Bool) :
    (l.countP fun a => p a && q a) ≤ l.countP q := by
  induction l with
  | nil => exact le_refl 0
  | cons a l ih =>
    rw [List.countP_cons, List.countP_cons]
    by_cases hp : p a <;> by_cases hq : q a <;> simp [hp, hq] <;> omega

theorem mostCommon_length {K : Type} (n : Nat) (c : List (K × Nat)) :
    (mostCommon n c).length = min n c.length := by
  rw [mostCommon, List.length_take, sortDesc_length]

theorem mostCommon_pairwise {K : Type} (n : Nat) (c : List (K × Nat)) :
    (mostCommon n c).Pairwise fun a b => b.2 ≤ a.2 :=
  List.Pairwise.sublist (List.take_sublist n _) (sortDesc_pairwise Prod.snd c)

theorem mostCommon_mem {K : Type} [DecidableEq K] (n : Nat) (ks : List K) (p : K × Nat)
    (h : p ∈ mostCommon n (counterList ks)) : p.1 ∈ ks ∧ p.2 = ks.count p.1 := by
  have h2 : p ∈ sortDesc Prod.snd (counterList ks) :=
    (List.take_sublist n _).subset h
  have h3 : p ∈ counterList ks := (sortDesc_mem Prod.snd _ p).mp h2
  exact counterList_mem ks p.1 p.2 h3

theorem counterList_length {K : Type} [DecidableEq K] (ks : List K) :
    (counterList ks).length = (firstOccs ks).length := by
  rw [counterList, List.length_map]

theorem counterList_map_fst {K : Type} [DecidableEq K] (ks : List K) :
    (counterList ks).map Prod.fst = firstOccs ks := by
  rw [counterList, List.map_map]
  exact List.map_id _

theorem mostCommon_stable {K : Type} [DecidableEq K] (n : Nat) (ks : List K) (c : Nat) :
    List.Sublist (((mostCommon n (counterList ks)).filter fun p => decide (p.2 = c)).map Prod.fst)
      (firstOccs ks) := by
  have h1 : List.Sublist ((mostCommon n (counterList ks)).filter (fun p => decide (p.2 = c)))
      ((sortDesc Prod.snd (counterList ks)).filter (fun p => decide (p.2 = c))) :=
    (List.take_sublist n _).filter _
  rw [sortDesc_filter] at h1
  have h2 := h1.map Prod.fst
  have h3 : List.Sublist ((((counterList ks).filter fun p => decide (p.2 = c)).map Prod.fst))
      (((counterList ks).map Prod.fst)) := (List.filter_sublist _).map _
  rw [counterList_map_fst] at h3
  exact h2.trans h3

theorem mostCommon_map_stable {K S : Type} [DecidableEq K] (n : Nat) (ks : List K) (c : Nat)
    (mk : K × Nat → S) (key : S → K) (cnt : S → Nat)
    (hkey : ∀ p, key (mk p) = p.1) (hcnt : ∀ p, cnt (mk p) = p.2) :
    List.Sublist ((((mostCommon n (counterList ks)).map mk).filter
      fun s => decide (cnt s = c)).map key) (firstOccs ks) := by
  rw [List.filter_map, List.map_map]
  have hfun1 : ((fun s => decide (cnt s = c)) ∘ mk) = fun p => decide (p.2 = c) := by
    funext p
    simp [Function.comp, hcnt]
  have hfun2 : (key ∘ mk) = Prod.fst := by
    funext p
    simp [Function.comp, hkey]
  rw [hfun1, hfun2]
  exact mostCommon_stable n ks c

theorem analyze_logs_fields (logs : List RawRecord) (r : AnalysisResult)
    (h : analyze_logs logs = some r) :
    r.total_logs_analyzed = (validLogs logs).length ∧
    r.most_active_ips =
      ((mostCommon 10 (counterList ((validLogs logs).filterMap fun e => e.ip))).map
        fun p => IpStat.mk p.1 p.2
          (pyRound 1 (qmul (qdiv (p.2 : ℚ) ((validLogs logs).length : ℚ)) 100))) ∧
    r.top_endpoints =
      ((mostCommon 5 (counterList ((validLogs logs).filterMap fun e => e.endpoint))).map
        fun p => EndpointStat.mk p.1 p.2
          (pyRound 1 (qmul (qdiv (p.2 : ℚ) ((validLogs logs).length : ℚ)) 100))) ∧
    r.server_error_rate_percent = pyRound 2
      (if 0 < (validLogs logs).length then
        qmul (qdiv (((validLogs logs).filter has5xx).length : ℚ)
          ((validLogs logs).length : ℚ)) 100
      else 0) ∧
    r.total_server_errors = ((validLogs logs).filter has5xx).length ∧
    r.response_code_summary = ResponseCodes.mk
      (bucketSum 200 300 (counterList ((validLogs logs).filterMap fun e => e.status)))
      (bucketSum 300 400 (counterList ((validLogs logs).filterMap fun e => e.status)))
      (bucketSum 400 500 (counterList ((validLogs logs).filterMap fun e => e.status)))
      (bucketSum 500 600 (counterList ((validLogs logs).filterMap fun e => e.status))) ∧
    r.detailed_status_codes = counterList ((validLogs logs).filterMap fun e => e.status) ∧
    r.top_error_endpoints =
      ((mostCommon 5 (counterList
        (((validLogs logs).filter has5xx).filterMap fun e => e.endpoint))).map
        fun p => ErrorEndpointStat.mk p.1 p.2) ∧
    r.endpoint_error_rates =
      ((firstOccs ((validLogs logs).filterMap fun e => e.endpoint)).map
        fun ep => (ep, RateStats.mk
          (((validLogs logs).filterMap fun e => e.endpoint).count ep)
          ((((validLogs logs).filter has5xx).filter fun e => e.endpoint == some ep).length)
          (pyRound 2 (if 0 < ((validLogs logs).filterMap fun e => e.endpoint).count ep then
            qmul (qdiv (((((validLogs logs).filter has5xx).filter
                fun e => e.endpoint == some ep).length : ℚ))
              ((((validLogs logs).filterMap fun e => e.endpoint).count ep : ℚ))) 100
          else 0)))) ∧
    r.recent_5xx_errors = (((validLogs logs).filter has5xx).take 10).map projDetail ∧
    r.avg_response_time_ms = pyRound 2
      (if ((validLogs logs).filterMap fun e => e.response_time_ms).length = 0 then 0
       else qdiv (qsum ((validLogs logs).filterMap fun e => e.response_time_ms))
         ((((validLogs logs).filterMap fun e => e.response_time_ms).length : ℚ))) ∧
    r.slowest_requests = ((sortDesc (fun e => e.response_time_ms.getD 0)
      ((validLogs logs).filter fun e =>
        e.response_time_ms.isSome && e.endpoint.isSome)).take 5).map projSlow ∧
    (validLogs logs).filterMap truthyTimestamp ≠ [] := by
  simp only [analyze_logs] at h
  split at h
  next mn mx hmin hmax =>
    rw [Option.some.injEq] at h
    subst h
    refine ⟨rfl, rfl, rfl, rfl, rfl, rfl, rfl, rfl, rfl, rfl, rfl, rfl, ?_⟩
    intro hnil
    rw [hnil] at hmin
    simp [listMinS] at hmin
  next => cases h

theorem countP_ranges_add (l : List Int) :
    l.countP (fun s => decide (200 ≤ s) && decide (s < 300)) +
    l.countP (fun s => decide (300 ≤ s) && decide (s < 400)) +
    l.countP (fun s => decide (400 ≤ s) && decide (s < 500)) +
    l.countP (fun s => decide (500 ≤ s) && decide (s < 600)) =
    l.countP (fun s => decide (200 ≤ s) && decide (s < 600)) := by
  induction l with
  | nil => rfl
  | cons s l ih =>
    simp only [List.countP_cons, Bool.and_eq_true, decide_eq_true_eq]
    split_ifs <;> omega

/-! ### Sample inputs -/

/-- Scenario B of the spec: three calls to `/api/test` (one 5xx), one call
to `/api/other` (5xx), all entries validated and timestamped. -/
def sampleB : List RawRecord :=
  [RawRecord.dict (Entry.mk (some "192.168.1.1") (some "/api/test") (some 200) (some "GET")
      (some 100) (some "2024-01-01T00:00:00")),
   RawRecord.dict (Entry.mk (some "192.168.1.1") (some "/api/test") (some 500) (some "GET")
      (some 200) (some "2024-01-01T00:00:01")),
   RawRecord.dict (Entry.mk (some "192.168.1.2") (some "/api/test") (some 200) (some "GET")
      (some 300) (some "2024-01-01T00:00:02")),
   RawRecord.dict (Entry.mk (some "192.168.1.3") (some "/api/other") (some 500) (some "POST")
      (some 400) (some "2024-01-01T00:00:03"))]

/-- The report `analyze_logs` produces on `sampleB`. -/
def sampleBResult : AnalysisResult := (analyze_logs sampleB).getD default

/-! ### Claim theorems -/

/-- Claim C1 (code_bug): the spec promises a zero-valued report on an empty
validated entry set, but `analyze_logs` raises a `ValueError` (Python `min`
over the empty timestamp sequence at line 89), modelled here as `none`. -/
theorem c1_empty_input_errors : analyze_logs [] = none := by decide

/-- A validated entry (both `ip` and `endpoint` present) carrying no
`timestamp`. -/
def c2FailingInput : List RawRecord :=
  [RawRecord.dict (Entry.mk (some "10.0.0.1") (some "/api/a") (some 200) (some "GET")
      (some 12) none)]

/-- Claim C2 (code_bug): on a validated entry set in which no entry carries a
timestamp, `analyze_logs` raises (min/max over an empty sequence, line 89)
instead of returning a report with empty span fields. -/
theorem c2_no_timestamp_errors :
    ValidatedInput c2FailingInput ∧ analyze_logs c2FailingInput = none := by decide

/-- Modelled from the wording of claim C3: retained iff a key-value record
whose `ip` and `endpoint` fields are present and non-empty. -/
def specKeepC3 : RawRecord → Bool
  | RawRecord.dict e => (decide (e.ip.getD "" ≠ "")) && (decide (e.endpoint.getD "" ≠ ""))
  | RawRecord.scalar => false

/-- A record whose `ip` and `endpoint` keys are present but empty. -/
def emptyFieldsRecord : RawRecord :=
  RawRecord.dict (Entry.mk (some "") (some "") none none none none)

/-- Claim C3 counterexample: `load_logs` retains a record whose `ip` and
`endpoint` are present but EMPTY, although the claim as stated (non-empty
fields required) says it is dropped. -/
theorem c3_counterexample :
    load_logs [emptyFieldsRecord] ≠ [emptyFieldsRecord].filter specKeepC3 ∧
    load_logs [emptyFieldsRecord] = [emptyFieldsRecord] ∧
    specKeepC3 emptyFieldsRecord = false := by decide

/-- Claim C3 (amended): `load_logs` retains a record iff it is a key-value
record in which `ip` and `endpoint` are PRESENT (possibly with empty
values); retained records keep their input order and no error is raised. -/
theorem c3_amended_retention (logs : List RawRecord) :
    List.Sublist (load_logs logs) logs ∧
    ∀ l, l ∈ load_logs logs ↔ (l ∈ logs ∧
      ∃ e, l = RawRecord.dict e ∧ e.ip.isSome = true ∧ e.endpoint.isSome = true) := by
  constructor
  · exact List.filter_sublist logs
  · intro l
    rw [load_logs, List.mem_filter]
    constructor
    · rintro ⟨h1, h2⟩
      refine ⟨h1, ?_⟩
      cases l with
      | scalar => simp [loadKeep] at h2
      | dict e =>
        simp only [loadKeep, Bool.and_eq_true] at h2
        exact ⟨e, rfl, h2.1, h2.2⟩
    · rintro ⟨h1, e, rfl, hip, hep⟩
      exact ⟨h1, by simp [loadKeep, hip, hep]⟩

theorem c3_witness : emptyFieldsRecord ∈ load_logs [emptyFieldsRecord] := by
  have h := (c3_amended_retention [emptyFieldsRecord]).2 emptyFieldsRecord
  exact h.mpr ⟨by simp, Entry.mk (some "") (some "") none none none none, rfl, rfl, rfl⟩

/-- Claim C5: for every endpoint present in the endpoint frequency table,
`endpoint_error_rates` maps it to its total call count, its 5xx count, and
the 5xx percentage rounded to two decimals. -/
theorem c5_endpoint_error_rates (logs : List RawRecord) (r : AnalysisResult) (ep : String)
    (hval : ValidatedInput logs) (h : analyze_logs logs = some r)
    (hep : ep ∈ (entriesOf logs).filterMap fun e => e.endpoint) :
    r.endpoint_error_rates.lookup ep = some (RateStats.mk
      (((entriesOf logs).filterMap fun e => e.endpoint).count ep)
      ((entriesOf logs).countP fun e => has5xx e && (e.endpoint == some ep))
      (pyRound 2 ((((entriesOf logs).countP fun e => has5xx e && (e.endpoint == some ep)) : ℚ) /
        ((((entriesOf logs).filterMap fun e => e.endpoint).count ep : ℚ)) * 100))) := by
  have hv := validLogs_validated logs hval
  have hrates := (analyze_logs_fields logs r h).2.2.2.2.2.2.2.2.1
  rw [hv] at hrates
  rw [hrates, lookup_map_of_nodup _ _ ep (nodup_firstOccs _) ((mem_firstOccs _ ep).mpr hep)]
  have hse : (((entriesOf logs).filter has5xx).filter fun e => e.endpoint == some ep).length
      = (entriesOf logs).countP fun e => has5xx e && (e.endpoint == some ep) := by
    rw [List.filter_filter, ← List.countP_eq_length_filter]
    congr 1
    funext a
    exact Bool.and_comm _ _
  have hpos : 0 < ((entriesOf logs).filterMap fun e => e.endpoint).count ep :=
    List.count_pos_iff.mpr hep
  rw [hse, if_pos hpos, qmul_eq, qdiv_eq]

theorem c5_witness :
    sampleBResult.endpoint_error_rates.lookup "/api/test" =
      some (RateStats.mk 3 1 (qdiv 3333 100)) ∧
    sampleBResult.endpoint_error_rates.lookup "/api/other" =
      some (RateStats.mk 1 1 100) := by
  have h1 := c5_endpoint_error_rates sampleB sampleBResult "/api/test" (by decide) (by rfl)
    (by decide)
  have h2 := c5_endpoint_error_rates sampleB sampleBResult "/api/other" (by decide) (by rfl)
    (by decide)
  constructor
  · rw [h1, ← qmul_eq, ← qdiv_eq]
    decide
  · rw [h2, ← qmul_eq, ← qdiv_eq]
    decide

/-- Claim C7: the four response-code buckets count exactly the
status-carrying entries in the strict ranges, the bucket totals exclude
out-of-range statuses, and the detailed per-status table still records
every carried status. -/
theorem c7_status_buckets (logs : List RawRecord) (r : AnalysisResult)
    (hval : ValidatedInput logs) (h : analyze_logs logs = some r) :
    r.response_code_summary.success2xx =
      ((entriesOf logs).filterMap fun e => e.status).countP
        (fun s => decide (200 ≤ s) && decide (s < 300)) ∧
    r.response_code_summary.redirect3xx =
      ((entriesOf logs).filterMap fun e => e.status).countP
        (fun s => decide (300 ≤ s) && decide (s < 400)) ∧
    r.response_code_summary.clientError4xx =
      ((entriesOf logs).filterMap fun e => e.status).countP
        (fun s => decide (400 ≤ s) && decide (s < 500)) ∧
    r.response_code_summary.serverError5xx =
      ((entriesOf logs).filterMap fun e => e.status).countP
        (fun s => decide (500 ≤ s) && decide (s < 600)) ∧
    r.response_code_summary.success2xx + r.response_code_summary.redirect3xx +
      r.response_code_summary.clientError4xx + r.response_code_summary.serverError5xx =
      ((entriesOf logs).filterMap fun e => e.status).countP
        (fun s => decide (200 ≤ s) && decide (s < 600)) ∧
    ∀ s, s ∈ ((entriesOf logs).filterMap fun e => e.status) →
      (s, ((entriesOf logs).filterMap fun e => e.status).count s) ∈
        r.detailed_status_codes := by
  have hv := validLogs_validated logs hval
  have hf := analyze_logs_fields logs r h
  have hcodes := hf.2.2.2.2.2.1
  have hdet := hf.2.2.2.2.2.2.1
  rw [hv] at hcodes hdet
  have h2xx : r.response_code_summary.success2xx =
      ((entriesOf logs).filterMap fun e => e.status).countP
        (fun s => decide (200 ≤ s) && decide (s < 300)) := by
    rw [hcodes]
    exact bucketSum_eq_countP 200 300 _
  have h3xx : r.response_code_summary.redirect3xx =
      ((entriesOf logs).filterMap fun e => e.status).countP
        (fun s => decide (300 ≤ s) && decide (s < 400)) := by
    rw [hcodes]
    exact bucketSum_eq_countP 300 400 _
  have h4xx : r.response_code_summary.clientError4xx =
      ((entriesOf logs).filterMap fun e => e.status).countP
        (fun s => decide (400 ≤ s) && decide (s < 500)) := by
    rw [hcodes]
    exact bucketSum_eq_countP 400 500 _
  have h5xx : r.response_code_summary.serverError5xx =
      ((entriesOf logs).filterMap fun e => e.status).countP
        (fun s => decide (500 ≤ s) && decide (s < 600)) := by
    rw [hcodes]
    exact bucketSum_eq_countP 500 600 _
  refine ⟨h2xx, h3xx, h4xx, h5xx, ?_, ?_⟩
  · rw [h2xx, h3xx, h4xx, h5xx]
    exact countP_ranges_add _
  · intro s hs
    rw [hdet, counterList]
    exact List.mem_map.mpr ⟨s, (mem_firstOccs _ s).mpr hs, rfl⟩

theorem c7_witness :
    sampleBResult.response_code_summary.success2xx = 2 ∧
    sampleBResult.response_code_summary.redirect3xx = 0 ∧
    sampleBResult.response_code_summary.clientError4xx = 0 ∧
    sampleBResult.response_code_summary.serverError5xx = 2 := by
  have h := c7_status_buckets sampleB sampleBResult (by decide) (by rfl)
  exact ⟨h.1.trans (by decide), h.2.1.trans (by decide), h.2.2.1.trans (by decide),
    h.2.2.2.1.trans (by decide)⟩

/-- Claim C8: the reported mean latency is the arithmetic mean of
`response_time_ms` over exactly the validated entries carrying that field,
rounded to two decimals, and 0 when no entry carries it. -/
theorem c8_avg_latency (logs : List RawRecord) (r : AnalysisResult)
    (hval : ValidatedInput logs) (h : analyze_logs logs = some r) :
    (((entriesOf logs).filterMap fun e => e.response_time_ms) = [] →
      r.avg_response_time_ms = 0) ∧
    (((entriesOf logs).filterMap fun e => e.response_time_ms) ≠ [] →
      r.avg_response_time_ms = pyRound 2
        (((entriesOf logs).filterMap fun e => e.response_time_ms).sum /
          ((((entriesOf logs).filterMap fun e => e.response_time_ms).length : ℚ)))) := by
  have hv := validLogs_validated logs hval
  have havg := (analyze_logs_fields logs r h).2.2.2.2.2.2.2.2.2.2.1
  rw [hv] at havg
  constructor
  · intro hnil
    rw [havg, hnil]
    decide
  · intro hne
    have hlen : ¬(((entriesOf logs).filterMap fun e => e.response_time_ms).length = 0) :=
      fun h0 => hne (List.length_eq_zero.mp h0)
    rw [havg, if_neg hlen, qdiv_eq, qsum_eq]

theorem c8_witness : sampleBResult.avg_response_time_ms = 250 := by
  have h := (c8_avg_latency sampleB sampleBResult (by decide) (by rfl)).2 (by decide)
  rw [h, ← qsum_eq, ← qdiv_eq]
  decide

/-- Claim C9: `analyze_logs` applies its own validity filter, requiring only
a present `ip` key: the total, the mean-latency population, the status-code
table and the server-error-rate denominator are all computed over the
key-value records carrying `ip`, endpoint or not. -/
theorem c9_ip_only_filter (logs : List RawRecord) (r : AnalysisResult)
    (h : analyze_logs logs = some r) :
    r.total_logs_analyzed = (logs.countP fun l => match l with
      | RawRecord.dict e => e.ip.isSome
      | RawRecord.scalar => false) ∧
    r.avg_response_time_ms = pyRound 2
      (if ((validLogs logs).filterMap fun e => e.response_time_ms).length = 0 then 0
       else ((validLogs logs).filterMap fun e => e.response_time_ms).sum /
         ((((validLogs logs).filterMap fun e => e.response_time_ms).length : ℚ))) ∧
    r.detailed_status_codes = counterList ((validLogs logs).filterMap fun e => e.status) ∧
    r.server_error_rate_percent = pyRound 2
      (if 0 < (validLogs logs).length then
        (((validLogs logs).filter has5xx).length : ℚ) / ((validLogs logs).length : ℚ) * 100
      else 0) := by
  have hf := analyze_logs_fields logs r h
  refine ⟨?_, ?_, hf.2.2.2.2.2.2.1, ?_⟩
  · rw [hf.1, validLogs_length_countP]
  · rw [hf.2.2.2.2.2.2.2.2.2.2.1]
    congr 1
    by_cases h0 : ((validLogs logs).filterMap fun e => e.response_time_ms).length = 0
    · rw [if_pos h0, if_pos h0]
    · rw [if_neg h0, if_neg h0, qdiv_eq, qsum_eq]
  · rw [hf.2.2.2.1]
    congr 1
    by_cases h0 : 0 < (validLogs logs).length
    · rw [if_pos h0, if_pos h0, qmul_eq, qdiv_eq]
    · rw [if_neg h0, if_neg h0]

/-- Two records: a fully validated one, and one carrying `ip` (plus status
and latency) but no `endpoint`, which the `load_logs` validator would drop. -/
def c9DemoLogs : List RawRecord :=
  [RawRecord.dict (Entry.mk (some "10.0.0.1") (some "/api/a") (some 200) (some "GET")
      (some 100) (some "2024-05-01T10:00:00")),
   RawRecord.dict (Entry.mk (some "10.0.0.2") none (some 500) none (some 200) none)]

/-- The report `analyze_logs` produces on `c9DemoLogs`. -/
def c9DemoResult : AnalysisResult := (analyze_logs c9DemoLogs).getD default

theorem c9_witness :
    c9DemoResult.total_logs_analyzed = 2 ∧
    c9DemoResult.avg_response_time_ms = 150 ∧
    c9DemoResult.server_error_rate_percent = 50 ∧
    load_logs c9DemoLogs ≠ c9DemoLogs := by
  have h := c9_ip_only_filter c9DemoLogs c9DemoResult (by rfl)
  refine ⟨h.1.trans (by decide), ?_, ?_, by decide⟩
  · rw [h.2.1, ← qsum_eq, ← qdiv_eq]
    decide
  · rw [h.2.2.2, ← qmul_eq, ← qdiv_eq]
    decide

/-- Claim C10: `recent_5xx_errors` is the first min(10, k) 5xx entries in
input order (a prefix of the 5xx subsequence), projected with defaults. -/
theorem c10_recent_5xx (logs : List RawRecord) (r : AnalysisResult)
    (hval : ValidatedInput logs) (h : analyze_logs logs = some r) :
    r.recent_5xx_errors = (((entriesOf logs).filter has5xx).map projDetail).take 10 ∧
    r.recent_5xx_errors.length = min 10 ((entriesOf logs).filter has5xx).length := by
  have hv := validLogs_validated logs hval
  have hrec := (analyze_logs_fields logs r h).2.2.2.2.2.2.2.2.2.1
  rw [hv] at hrec
  constructor
  · rw [hrec, List.map_take]
  · rw [hrec, List.length_map, List.length_take]

theorem c10_witness :
    sampleBResult.recent_5xx_errors.length = 2 ∧
    sampleBResult.recent_5xx_errors =
      [ErrorDetail.mk "2024-01-01T00:00:01" "192.168.1.1" "/api/test" 500 "GET" 200,
       ErrorDetail.mk "2024-01-01T00:00:03" "192.168.1.3" "/api/other" 500 "POST" 400] := by
  have h := c10_recent_5xx sampleB sampleBResult (by decide) (by rfl)
  exact ⟨h.2.trans (by decide), h.1.trans (by decide)⟩

theorem countP_and_le_left {α : Type} (l : List α) (p q : α → Bool) :
    (l.countP fun a => p a && q a) ≤ l.countP p := by
  induction l with
  | nil => exact le_refl 0
  | cons a l ih =>
    rw [List.countP_cons, List.countP_cons]
    by_cases hp : p a <;> by_cases hq : q a <;> simp [hp, hq] <;> omega

theorem pyRound_ratio_bounds (d : Nat) (a b : ℕ) (hab : a ≤ b) (hb : 0 < b) :
    0 ≤ pyRound d (qmul (qdiv ((a : ℕ) : ℚ) ((b : ℕ) : ℚ)) 100) ∧
    pyRound d (qmul (qdiv ((a : ℕ) : ℚ) ((b : ℕ) : ℚ)) 100) ≤ 100 := by
  rw [qmul_eq, qdiv_eq]
  have hbq : (0 : ℚ) < ((b : ℕ) : ℚ) := by exact_mod_cast hb
  have h1 : (0 : ℚ) ≤ (((a : ℕ) : ℚ) / ((b : ℕ) : ℚ)) * 100 := by positivity
  have h2 : (((a : ℕ) : ℚ) / ((b : ℕ) : ℚ)) * 100 ≤ 100 := by
    have hd : ((a : ℕ) : ℚ) / ((b : ℕ) : ℚ) ≤ 1 := by
      rw [div_le_one hbq]
      exact_mod_cast hab
    nlinarith
  exact ⟨pyRound_nonneg d _ h1, pyRound_le d _ h2⟩

/-- Claim C6: every count in the report is bounded by the validated entry
total, and every percentage or rate lies in [0, 100]. -/
theorem c6_bounds (logs : List RawRecord) (r : AnalysisResult)
    (hval : ValidatedInput logs) (h : analyze_logs logs = some r) :
    r.total_logs_analyzed ≤ (entriesOf logs).length ∧
    (∀ s ∈ r.most_active_ips, s.request_count ≤ (entriesOf logs).length ∧
      0 ≤ s.percentage ∧ s.percentage ≤ 100) ∧
    (∀ s ∈ r.top_endpoints, s.request_count ≤ (entriesOf logs).length ∧
      0 ≤ s.percentage ∧ s.percentage ≤ 100) ∧
    (0 ≤ r.server_error_rate_percent ∧ r.server_error_rate_percent ≤ 100) ∧
    r.total_server_errors ≤ (entriesOf logs).length ∧
    (r.response_code_summary.success2xx ≤ (entriesOf logs).length ∧
     r.response_code_summary.redirect3xx ≤ (entriesOf logs).length ∧
     r.response_code_summary.clientError4xx ≤ (entriesOf logs).length ∧
     r.response_code_summary.serverError5xx ≤ (entriesOf logs).length) ∧
    (∀ p ∈ r.detailed_status_codes, p.2 ≤ (entriesOf logs).length) ∧
    (∀ s ∈ r.top_error_endpoints, s.error_count ≤ (entriesOf logs).length) ∧
    (∀ q ∈ r.endpoint_error_rates, q.2.total_requests ≤ (entriesOf logs).length ∧
      q.2.server_errors_5xx ≤ (entriesOf logs).length ∧
      0 ≤ q.2.error_rate_percent ∧ q.2.error_rate_percent ≤ 100) := by
  have hv := validLogs_validated logs hval
  have hf := analyze_logs_fields logs r h
  rw [hv] at hf
  refine ⟨?_, ?_, ?_, ?_, ?_, ?_, ?_, ?_, ?_⟩
  · exact le_of_eq hf.1
  · intro s hs
    rw [hf.2.1] at hs
    rcases List.mem_map.mp hs with ⟨p, hp, rfl⟩
    rcases mostCommon_mem 10 _ p hp with ⟨hmem, hcount⟩
    have hle : p.2 ≤ (entriesOf logs).length := by
      rw [hcount]
      exact le_trans (List.count_le_length _ _) (List.length_filterMap_le _ _)
    have hpos : 0 < (entriesOf logs).length := by
      have h1 : 0 < ((entriesOf logs).filterMap fun e => e.ip).length :=
        List.length_pos_of_mem hmem
      exact lt_of_lt_of_le h1 (List.length_filterMap_le _ _)
    exact ⟨hle, (pyRound_ratio_bounds 1 p.2 _ hle hpos).1,
      (pyRound_ratio_bounds 1 p.2 _ hle hpos).2⟩
  · intro s hs
    rw [hf.2.2.1] at hs
    rcases List.mem_map.mp hs with ⟨p, hp, rfl⟩
    rcases mostCommon_mem 5 _ p hp with ⟨hmem, hcount⟩
    have hle : p.2 ≤ (entriesOf logs).length := by
      rw [hcount]
      exact le_trans (List.count_le_length _ _) (List.length_filterMap_le _ _)
    have hpos : 0 < (entriesOf logs).length := by
      have h1 : 0 < ((entriesOf logs).filterMap fun e => e.endpoint).length :=
        List.length_pos_of_mem hmem
      exact lt_of_lt_of_le h1 (List.length_filterMap_le _ _)
    exact ⟨hle, (pyRound_ratio_bounds 1 p.2 _ hle hpos).1,
      (pyRound_ratio_bounds 1 p.2 _ hle hpos).2⟩
  · rw [hf.2.2.2.1]
    by_cases h0 : 0 < (entriesOf logs).length
    · rw [if_pos h0]
      exact pyRound_ratio_bounds 2 _ _ (List.length_filter_le _ _) h0
    · rw [if_neg h0]
      exact ⟨by decide, by decide⟩
  · rw [hf.2.2.2.2.1]
    exact List.length_filter_le _ _
  · have hcodes := hf.2.2.2.2.2.1
    have hbound : ∀ lo hi : Int,
        bucketSum lo hi (counterList ((entriesOf logs).filterMap fun e => e.status)) ≤
          (entriesOf logs).length := by
      intro lo hi
      rw [bucketSum_eq_countP]
      exact le_trans (List.countP_le_length _) (List.length_filterMap_le _ _)
    rw [hcodes]
    exact ⟨hbound 200 300, hbound 300 400, hbound 400 500, hbound 500 600⟩
  · intro p hp
    rw [hf.2.2.2.2.2.2.1] at hp
    rcases counterList_mem _ p.1 p.2 hp with ⟨_, hcount⟩
    rw [hcount]
    exact le_trans (List.count_le_length _ _) (List.length_filterMap_le _ _)
  · intro s hs
    rw [hf.2.2.2.2.2.2.2.1] at hs
    rcases List.mem_map.mp hs with ⟨p, hp, rfl⟩
    rcases mostCommon_mem 5 _ p hp with ⟨_, hcount⟩
    show p.2 ≤ (entriesOf logs).length
    rw [hcount]
    exact le_trans (List.count_le_length _ _)
      (le_trans (List.length_filterMap_le _ _) (List.length_filter_le _ _))
  · intro q hq
    rw [hf.2.2.2.2.2.2.2.2.1] at hq
    rcases List.mem_map.mp hq with ⟨ep, hep, rfl⟩
    have hepKeys : ep ∈ (entriesOf logs).filterMap fun e => e.endpoint :=
      (mem_firstOccs _ ep).mp hep
    have hcnt_pos : 0 < ((entriesOf logs).filterMap fun e => e.endpoint).count ep :=
      List.count_pos_iff.mpr hepKeys
    have hcnt_le : ((entriesOf logs).filterMap fun e => e.endpoint).count ep ≤
        (entriesOf logs).length :=
      le_trans (List.count_le_length _ _) (List.length_filterMap_le _ _)
    have hse_le_cnt : (((entriesOf logs).filter has5xx).filter
        fun e => e.endpoint == some ep).length ≤
        ((entriesOf logs).filterMap fun e => e.endpoint).count ep := by
      rw [List.filter_filter, ← List.countP_eq_length_filter, count_filterMap_eq_countP]
      exact countP_and_le_left _ _ _
    have hse_le : (((entriesOf logs).filter has5xx).filter
        fun e => e.endpoint == some ep).length ≤ (entriesOf logs).length :=
      le_trans (List.length_filter_le _ _) (List.length_filter_le _ _)
    refine ⟨hcnt_le, hse_le, ?_, ?_⟩
    · show 0 ≤ pyRound 2 _
      rw [if_pos hcnt_pos]
      exact (pyRound_ratio_bounds 2 _ _ hse_le_cnt hcnt_pos).1
    · show pyRound 2 _ ≤ 100
      rw [if_pos hcnt_pos]
      exact (pyRound_ratio_bounds 2 _ _ hse_le_cnt hcnt_pos).2

theorem c6_witness :
    sampleBResult.total_logs_analyzed ≤ (entriesOf sampleB).length ∧
    0 ≤ sampleBResult.server_error_rate_percent ∧
    sampleBResult.server_error_rate_percent ≤ 100 := by
  have h := c6_bounds sampleB sampleBResult (by decide) (by rfl)
  exact ⟨h.1, h.2.2.2.1.1, h.2.2.2.1.2⟩

/-- Claim C4: each ranked output respects its bound (10 for ips, 5 for the
others), returning fewer items when fewer exist; is sorted descending by its
score; and breaks ties by first-occurrence input order (the filtered
equal-score items form a sublist of the first-occurrence key order, resp. of
the input-order candidate list). -/
theorem c4_rankings (logs : List RawRecord) (r : AnalysisResult)
    (hval : ValidatedInput logs) (h : analyze_logs logs = some r) :
    (r.most_active_ips.length =
      min 10 (firstOccs ((entriesOf logs).filterMap fun e => e.ip)).length ∧
     r.most_active_ips.Pairwise (fun a b => b.request_count ≤ a.request_count) ∧
     ∀ c : Nat, List.Sublist
       ((r.most_active_ips.filter fun s => decide (s.request_count = c)).map IpStat.ip_address)
       (firstOccs ((entriesOf logs).filterMap fun e => e.ip))) ∧
    (r.top_endpoints.length =
      min 5 (firstOccs ((entriesOf logs).filterMap fun e => e.endpoint)).length ∧
     r.top_endpoints.Pairwise (fun a b => b.request_count ≤ a.request_count) ∧
     ∀ c : Nat, List.Sublist
       ((r.top_endpoints.filter fun s => decide (s.request_count = c)).map
         EndpointStat.endpoint)
       (firstOccs ((entriesOf logs).filterMap fun e => e.endpoint))) ∧
    (r.top_error_endpoints.length =
      min 5 (firstOccs (((entriesOf logs).filter has5xx).filterMap
        fun e => e.endpoint)).length ∧
     r.top_error_endpoints.Pairwise (fun a b => b.error_count ≤ a.error_count) ∧
     ∀ c : Nat, List.Sublist
       ((r.top_error_endpoints.filter fun s => decide (s.error_count = c)).map
         ErrorEndpointStat.endpoint)
       (firstOccs (((entriesOf logs).filter has5xx).filterMap fun e => e.endpoint))) ∧
    (r.slowest_requests.length =
      min 5 ((entriesOf logs).filter fun e =>
        e.response_time_ms.isSome && e.endpoint.isSome).length ∧
     r.slowest_requests.Pairwise (fun a b => b.response_time_ms ≤ a.response_time_ms) ∧
     ∀ c : ℚ, List.Sublist
       (r.slowest_requests.filter fun s => decide (s.response_time_ms = c))
       ((((entriesOf logs).filter fun e =>
           e.response_time_ms.isSome && e.endpoint.isSome).filter
         fun e => decide (e.response_time_ms.getD 0 = c)).map projSlow)) := by
  have hv := validLogs_validated logs hval
  have hf := analyze_logs_fields logs r h
  rw [hv] at hf
  refine ⟨⟨?_, ?_, ?_⟩, ⟨?_, ?_, ?_⟩, ⟨?_, ?_, ?_⟩, ⟨?_, ?_, ?_⟩⟩
  · rw [hf.2.1, List.length_map, mostCommon_length, counterList_length]
  · rw [hf.2.1, List.pairwise_map]
    exact mostCommon_pairwise 10 _
  · intro c
    rw [hf.2.1]
    exact mostCommon_map_stable 10 _ c _ IpStat.ip_address IpStat.request_count
      (fun p => rfl) (fun p => rfl)
  · rw [hf.2.2.1, List.length_map, mostCommon_length, counterList_length]
  · rw [hf.2.2.1, List.pairwise_map]
    exact mostCommon_pairwise 5 _
  · intro c
    rw [hf.2.2.1]
    exact mostCommon_map_stable 5 _ c _ EndpointStat.endpoint EndpointStat.request_count
      (fun p => rfl) (fun p => rfl)
  · rw [hf.2.2.2.2.2.2.2.1, List.length_map, mostCommon_length, counterList_length]
  · rw [hf.2.2.2.2.2.2.2.1, List.pairwise_map]
    exact mostCommon_pairwise 5 _
  · intro c
    rw [hf.2.2.2.2.2.2.2.1]
    exact mostCommon_map_stable 5 _ c _ ErrorEndpointStat.endpoint
      ErrorEndpointStat.error_count (fun p => rfl) (fun p => rfl)
  · rw [hf.2.2.2.2.2.2.2.2.2.2.2.1, List.length_map, List.length_take, sortDesc_length]
  · rw [hf.2.2.2.2.2.2.2.2.2.2.2.1, List.pairwise_map]
    have hp := List.Pairwise.sublist (List.take_sublist 5 _)
      (sortDesc_pairwise (fun e : Entry => e.response_time_ms.getD 0)
        ((entriesOf logs).filter fun e => e.response_time_ms.isSome && e.endpoint.isSome))
    exact hp
  · intro c
    rw [hf.2.2.2.2.2.2.2.2.2.2.2.1, List.filter_map]
    apply List.Sublist.map
    have h1 : List.Sublist
        (((sortDesc (fun e => e.response_time_ms.getD 0)
          ((entriesOf logs).filter fun e =>
            e.response_time_ms.isSome && e.endpoint.isSome)).take 5).filter
          fun e => decide (e.response_time_ms.getD 0 = c))
        ((sortDesc (fun e => e.response_time_ms.getD 0)
          ((entriesOf logs).filter fun e =>
            e.response_time_ms.isSome && e.endpoint.isSome)).filter
          fun e => decide (e.response_time_ms.getD 0 = c)) :=
      (List.take_sublist 5 _).filter _
    have h2 := sortDesc_filter (fun e => e.response_time_ms.getD 0)
      ((entriesOf logs).filter fun e => e.response_time_ms.isSome && e.endpoint.isSome) c
    rw [h2] at h1
    exact h1

theorem c4_witness :
    sampleBResult.most_active_ips.length = 3 ∧
    sampleBResult.top_endpoints.length = 2 ∧
    sampleBResult.top_error_endpoints.length = 2 ∧
    sampleBResult.slowest_requests.length = 4 := by
  have h := c4_rankings sampleB sampleBResult (by decide) (by rfl)
  exact ⟨h.1.1.trans (by decide), h.2.1.1.trans (by decide), h.2.2.1.1.trans (by decide),
    h.2.2.2.1.trans (by decide)⟩

end LogAnalyzer
